import Mathlib

/-!
Shallow embedding of the burlo.v2 Modbus telemetry and history engine.

The definitions below are translated from the Go source of the repository:
the dx2w history service (anomaly checks, polling step, retention trim,
aggregation queries, snapshot persistence) and the modbus client codec
(ReadValue, WriteValue, registerCountFromDataType and the byte helpers).

Modelling conventions:
  * Go `time.Time` values are modelled as integers (nanoseconds since the
    epoch), matching Go `time.Duration` arithmetic on the nanosecond scale.
  * Go floating point values (`float32` / `float64`) are modelled with exact
    rational arithmetic.  Every claim below exercises only values and
    operations for which the Go float computation is exact (small integers,
    dyadic fractions, decimal literals such as 0.1 whose products round to the
    exact result), so the rational model agrees with the Go computation on
    every input appearing in a theorem or witness.
  * Go `any` (interface) values are modelled by the inductive `GoVal` whose
    constructors record the dynamic type.  Go interface equality requires the
    dynamic types to coincide, which structural equality of `GoVal` mirrors.
  * Fallible Go functions return `Option` / `Except`; a `log.Fatal` call
    (which panics and aborts the process) is modelled by a dedicated
    constructor of the outcome type.
-/

deriving instance DecidableEq for Except

/-- Dynamic Go values (`any`) that flow through the telemetry engine: the
decoded register values (float32 / int16 / uint16 / bool), plain ints and
float64 values produced by JSON decoding, and the nil interface. -/
inductive GoVal where
  | VNil : GoVal
  | VF32 : ℚ → GoVal
  | VF64 : ℚ → GoVal
  | VI16 : ℤ → GoVal
  | VU16 : ℕ → GoVal
  | VInt : ℤ → GoVal
  | VBool : Bool → GoVal

deriving DecidableEq, Repr

namespace dx2w

/-- HistoryEntry from the dx2w service: timestamp (nanoseconds), dynamic value
(`Value any`, nil modelled as `GoVal.VNil`) and error string (empty string
means no error, as in Go). -/
structure HistoryEntry where
  Timestamp : ℤ
  Value : GoVal
  Error : String

deriving DecidableEq, Repr

/-- The in-memory history map `map[string][]HistoryEntry`, modelled as an
association list over register names. -/
abbrev HistMap : Type := List (String × List HistoryEntry)

/-- Go map read `s.history[name]`: the entry list for a register, `[]` when
the key is absent (the Go zero value for a slice). -/
def histGet (h : HistMap) (name : String) : List HistoryEntry :=
  match h with
  | [] => []
  | (k, v) :: rest => if k = name then v else histGet rest name

/-- Go map write `s.history[name] = es`: replace the binding for the key, or
add it when absent. -/
def histSet (h : HistMap) (name : String) (es : List HistoryEntry) : HistMap :=
  match h with
  | [] => [(name, es)]
  | (k, v) :: rest => if k = name then (k, es) :: rest else (k, v) :: histSet rest name es

/-- The water temperature plausibility check `water_temp_check`: the candidate
value (degrees Fahrenheit) must lie in [68 F, 122 F], i.e. [20 C, 50 C].  The
`name` and `history` arguments are unused by the Go function but kept for the
shared check signature; the extra `nowCheck` argument carries the current time
that Go reads implicitly via `time.Since` in the sibling check. -/
def water_temp_check (_name : String) (tempF : ℚ) (_nowCheck : ℤ) (_history : HistMap) :
    Option String :=
  if tempF < 68 then some "water temp too low"
  else if tempF > 122 then some "water temp too high"
  else none

/-- The heat pump output power check `hp_output_kw_check`: zero passes,
negative values and values above 15 are rejected, and when the latest
`hp_input_kw` history entry holds a float32, output with input below 100 or a
coefficient of performance above 8 is rejected. -/
def hp_output_kw_check (_name : String) (outputKW : ℚ) (_nowCheck : ℤ) (history : HistMap) :
    Option String :=
  if outputKW = 0 then none
  else if outputKW < 0 then some "negative output KW"
  else if outputKW > 15 then some "output KW exceeds expected maximum"
  else
    match (histGet history "hp_input_kw").getLast? with
    | none => none
    | some last =>
        match last.Value with
        | GoVal.VF32 inputKW =>
            if inputKW < 100 then some "cannot have output KW with no input KW"
            else if outputKW > 8 * inputKW then some "cannot have output KW with COP above 8"
            else none
        | _ => none

/-- Eight minutes in nanoseconds, the `maxInterval` of the outdoor air
temperature rate check. -/
def maxIntervalNs : ℤ := 8 * 60 * 1000000000

/-- The outdoor air temperature check `outside_air_temp_check`: absolute
bounds [-58 F, 122 F] ([-50 C, 50 C]), then a rate-of-change check against the
latest `outside_air_temp` entry: when that entry is less than 8 minutes old
and holds a float32, the new value may differ from it by at most 27 F (15 C).
Go computes the age with `time.Since`, modelled by `nowCheck - Timestamp`. -/
def outside_air_temp_check (_name : String) (tempF : ℚ) (nowCheck : ℤ) (history : HistMap) :
    Option String :=
  if tempF < -58 then some "air temp too low"
  else if tempF > 122 then some "air temp too high"
  else
    match (histGet history "outside_air_temp").getLast? with
    | none => none
    | some latest =>
        match latest.Value with
        | GoVal.VF32 prevTemp =>
            let delta := |tempF - prevTemp|
            let dt := nowCheck - latest.Timestamp
            if dt < maxIntervalNs ∧ delta > 27 then some "air temp changed too fast"
            else none
        | _ => none

/-- The `valueErrorChecks` table: which per-register validity rule applies to
a register name (water temperature registers, the outdoor air temperature and
the heat pump output power); names without a rule have none. -/
def valueErrorChecks (name : String) :
    Option (String → ℚ → ℤ → HistMap → Option String) :=
  if name = "hp_output_kw" then some hp_output_kw_check
  else if name = "mix_water_temp" then some water_temp_check
  else if name = "return_water_temp" then some water_temp_check
  else if name = "hot_water_min_temp" then some water_temp_check
  else if name = "hp_entering_water_temp" then some water_temp_check
  else if name = "hp_exiting_water_temp" then some water_temp_check
  else if name = "buffer_tank_setpoint" then some water_temp_check
  else if name = "outside_air_temp" then some outside_air_temp_check
  else none

/-- Anomaly validity check `invalidValueErrorDetection`: a nil value is an
error, a non-float32 value is an error, and otherwise the per-register rule
from `valueErrorChecks` runs (names without a rule always pass). -/
def invalidValueErrorDetection (name : String) (value : GoVal) (nowCheck : ℤ)
    (history : HistMap) : Option String :=
  match value with
  | GoVal.VF32 q =>
      match valueErrorChecks name with
      | some check => check name q nowCheck history
      | none => none
  | GoVal.VNil => some "value is nil"
  | _ => some "value is not a float32"

/-- The previous value carried forward on a failed read: the `Value` of the
last history entry, or the nil interface when the register has no entries. -/
def prevValueOf (es : List HistoryEntry) : GoVal :=
  match es.getLast? with
  | some e => e.Value
  | none => GoVal.VNil

/-- The index search of the retention trim in `pollRegisters`: the Go loop
finds the first index whose timestamp is strictly after the cutoff and breaks;
when no entry qualifies the index variable keeps its initial value 0 (so
nothing is trimmed). -/
def trimIdx (cutoff : ℤ) : List HistoryEntry → Option ℕ
  | [] => none
  | e :: rest =>
      if cutoff < e.Timestamp then some 0
      else (trimIdx cutoff rest).map Nat.succ

/-- Retention trim `s.history[name] = entries[idx:]` with `idx` from
`trimIdx` (0, i.e. the whole list kept, when no entry is after the cutoff). -/
def trimOld (cutoff : ℤ) (es : List HistoryEntry) : List HistoryEntry :=
  match trimIdx cutoff es with
  | some i => es.drop i
  | none => es

/-- Twenty four hours in nanoseconds, the retention window. -/
def dayNs : ℤ := 24 * 60 * 60 * 1000000000

/-- One iteration of the register loop of `pollRegisters`, for one register:
the entry timestamp `tEntry` is taken before the read; `res` is the result of
`ReadValue` (`Except.error` when the read failed, in which case the returned
value is the nil interface); when the read failed the error is replaced by the
result of `invalidValueErrorDetection` on the (nil) value; a remaining error
stores the carried-forward previous value with the error string, otherwise the
read value is stored; finally entries older than 24 hours before `nowTrim`
(the time of the trim, read after the append) are dropped. -/
def pollEntry (name : String) (res : Except String GoVal) (tEntry nowCheck : ℤ)
    (h : HistMap) : HistoryEntry :=
  let val : GoVal := match res with
    | Except.ok v => v
    | Except.error _ => GoVal.VNil
  let err1 : Option String := match res with
    | Except.ok _ => none
    | Except.error _ => invalidValueErrorDetection name val nowCheck h
  match err1 with
  | some m => { Timestamp := tEntry, Value := prevValueOf (histGet h name), Error := m }
  | none => { Timestamp := tEntry, Value := val, Error := "" }

def pollStep (name : String) (res : Except String GoVal) (tEntry nowCheck nowTrim : ℤ)
    (h : HistMap) : HistMap :=
  histSet h name
    (trimOld (nowTrim - dayNs) (histGet h name ++ [pollEntry name res tEntry nowCheck h]))

/-- ListAll returns a defensive copy of the entry list of one register; the
copy is identity in this model. -/
def ListAll (h : HistMap) (name : String) : List HistoryEntry :=
  histGet h name

/-- The value-carry invariant of the history: after any entry with a non-nil
value, every later entry also has a non-nil value. -/
def onceValued (es : List HistoryEntry) : Prop :=
  es.Pairwise (fun a b => a.Value ≠ GoVal.VNil → b.Value ≠ GoVal.VNil)

/-- Sample history for the anomaly substitution scenario: one prior good
entry with value 35.0 for a water temperature register. -/
def waterHist : HistMap := [("mix_water_temp", [⟨0, GoVal.VF32 35, ""⟩])]

/-- Sample history for the invariant witness: one valued entry. -/
def oneGoodHist : HistMap := [("r", [⟨0, GoVal.VF32 1, ""⟩])]

/-- Sample history spanning 30 hours before the poll at t = 108000 s: one
entry 30 hours old and one 15 hours old (times in nanoseconds). -/
def thirtyHourHist : HistMap :=
  [("r", [⟨0, GoVal.VF32 1, ""⟩, ⟨54000000000000, GoVal.VF32 2, ""⟩])]

/-- Conversion `toFloat64` of the dx2w package: accepts float64, float32,
int, int16 and uint16 dynamic values; everything else (nil, bool) fails. -/
def toFloat64 (v : GoVal) : Option ℚ :=
  match v with
  | GoVal.VF64 q => some q
  | GoVal.VF32 q => some q
  | GoVal.VInt n => some (n : ℚ)
  | GoVal.VI16 n => some (n : ℚ)
  | GoVal.VU16 n => some (n : ℚ)
  | _ => none

/-- The filter shared by the aggregation queries: an entry is skipped when its
timestamp is before the cutoff, its error string is non-empty, or its value is
the nil interface. -/
def skipEntry (cutoff : ℤ) (e : HistoryEntry) : Prop :=
  e.Timestamp < cutoff ∨ e.Error ≠ "" ∨ e.Value = GoVal.VNil

instance (cutoff : ℤ) (e : HistoryEntry) : Decidable (skipEntry cutoff e) :=
  inferInstanceAs (Decidable (_ ∨ _ ∨ _))

/-- The accumulation loop of `Mean`: running sum and count of the numeric
values of the entries that pass the filter, in iteration order. -/
def meanLoop (cutoff : ℤ) (sum : ℚ) (count : ℕ) : List HistoryEntry → ℚ × ℕ
  | [] => (sum, count)
  | e :: rest =>
      if skipEntry cutoff e then meanLoop cutoff sum count rest
      else
        match toFloat64 e.Value with
        | none => meanLoop cutoff sum count rest
        | some q => meanLoop cutoff (sum + q) (count + 1) rest

/-- Mean of a register over `[now - interval, now]`: error when the register
has no history at all, error when no numeric entries pass the filter, and the
arithmetic mean otherwise. -/
def Mean (h : HistMap) (name : String) (interval now : ℤ) : Except String ℚ :=
  let entries := histGet h name
  if entries = [] then Except.error ("no history for register " ++ name)
  else
    match meanLoop (now - interval) 0 0 entries with
    | (sum, count) =>
        if count = 0 then Except.error ("no numeric values for register " ++ name)
        else Except.ok (sum / (count : ℚ))

/-- The accumulation loop of `PercentOn`: total and on counters.  A boolean
counts as on when true, a numeric value counts as on when non-zero; any other
dynamic type decrements the total again (the Go default branch), which in this
model only the nil interface could reach and the filter already removes it. -/
def percentLoop (cutoff : ℤ) (total onCount : ℤ) : List HistoryEntry → ℤ × ℤ
  | [] => (total, onCount)
  | e :: rest =>
      if skipEntry cutoff e then percentLoop cutoff total onCount rest
      else
        match e.Value with
        | GoVal.VBool b =>
            percentLoop cutoff (total + 1) (if b then onCount + 1 else onCount) rest
        | GoVal.VInt n =>
            percentLoop cutoff (total + 1) (if (n : ℚ) ≠ 0 then onCount + 1 else onCount) rest
        | GoVal.VI16 n =>
            percentLoop cutoff (total + 1) (if (n : ℚ) ≠ 0 then onCount + 1 else onCount) rest
        | GoVal.VU16 n =>
            percentLoop cutoff (total + 1) (if (n : ℚ) ≠ 0 then onCount + 1 else onCount) rest
        | GoVal.VF32 q =>
            percentLoop cutoff (total + 1) (if q ≠ 0 then onCount + 1 else onCount) rest
        | GoVal.VF64 q =>
            percentLoop cutoff (total + 1) (if q ≠ 0 then onCount + 1 else onCount) rest
        | GoVal.VNil => percentLoop cutoff (total + 1 - 1) onCount rest

/-- PercentOn of a register over `[now - interval, now]`: error when the
register has no history, error when no countable entries pass the filter, and
otherwise 100 times the fraction of on entries. -/
def PercentOn (h : HistMap) (name : String) (interval now : ℤ) : Except String ℚ :=
  let entries := histGet h name
  if entries = [] then Except.error ("no history for register " ++ name)
  else
    match percentLoop (now - interval) 0 0 entries with
    | (total, onCount) =>
        if total ≤ 0 then Except.error ("no valid entries for register " ++ name)
        else Except.ok ((onCount : ℚ) / (total : ℚ) * 100)

/-- The numeric projection loop of `Median`, appending in iteration order. -/
def medianLoop (cutoff : ℤ) (nums : List ℚ) : List HistoryEntry → List ℚ
  | [] => nums
  | e :: rest =>
      if skipEntry cutoff e then medianLoop cutoff nums rest
      else
        match toFloat64 e.Value with
        | none => medianLoop cutoff nums rest
        | some q => medianLoop cutoff (nums ++ [q]) rest

/-- Insertion into an ascending list, the inner step of the sort used by
Median (Go uses sort.Float64s, ascending). -/
def insertSorted (q : ℚ) : List ℚ → List ℚ
  | [] => [q]
  | x :: xs => if q ≤ x then q :: x :: xs else x :: insertSorted q xs

/-- Ascending sort of the numeric subset (models sort.Float64s). -/
def sortNums : List ℚ → List ℚ
  | [] => []
  | x :: xs => insertSorted x (sortNums xs)

/-- Median of a register over `[now - interval, now]`: error when the register
has no history, error when no numeric entries pass the filter, otherwise the
middle element of the sorted numeric subset for an odd count and the average
of the two middle elements for an even count. -/
def Median (h : HistMap) (name : String) (interval now : ℤ) : Except String ℚ :=
  let entries := histGet h name
  if entries = [] then Except.error ("no history for register " ++ name)
  else
    match medianLoop (now - interval) [] entries with
    | [] => Except.error ("no numeric values for register " ++ name)
    | n :: ns =>
        let sorted := sortNums (n :: ns)
        let mid := sorted.length / 2
        if sorted.length % 2 = 0 then
          Except.ok ((sorted.getD (mid - 1) 0 + sorted.getD mid 0) / 2)
        else Except.ok (sorted.getD mid 0)

/-- Concrete numeric history [1, 2, 3, 4, 5] for the aggregation checks, all
entries inside the window. -/
def fiveNumHist : HistMap :=
  [("num", [⟨0, GoVal.VF32 1, ""⟩, ⟨0, GoVal.VF32 2, ""⟩, ⟨0, GoVal.VF32 3, ""⟩,
            ⟨0, GoVal.VF32 4, ""⟩, ⟨0, GoVal.VF32 5, ""⟩])]

/-- Concrete numeric history [1, 2, 3, 4] for the even-count median rule. -/
def fourNumHist : HistMap :=
  [("num", [⟨0, GoVal.VF32 1, ""⟩, ⟨0, GoVal.VF32 2, ""⟩, ⟨0, GoVal.VF32 3, ""⟩,
            ⟨0, GoVal.VF32 4, ""⟩])]

/-- Concrete boolean history with 3 true and 7 false entries. -/
def boolHist : HistMap :=
  [("b", [⟨0, GoVal.VBool true, ""⟩, ⟨0, GoVal.VBool true, ""⟩, ⟨0, GoVal.VBool true, ""⟩,
          ⟨0, GoVal.VBool false, ""⟩, ⟨0, GoVal.VBool false, ""⟩, ⟨0, GoVal.VBool false, ""⟩,
          ⟨0, GoVal.VBool false, ""⟩, ⟨0, GoVal.VBool false, ""⟩, ⟨0, GoVal.VBool false, ""⟩,
          ⟨0, GoVal.VBool false, ""⟩])]

end dx2w

namespace modbus

/-- RegisterDef from the modbus package.  The Go `Type` field is called
`RegType` here because `Type` is reserved in Lean; scale and offset are
float64 in Go, modelled as exact rationals. -/
structure RegisterDef where
  Address : ℕ
  RegType : String
  DataType : String
  Scale : ℚ
  Offset : ℚ
  Description : String
  Writable : Bool
  Group : String

deriving DecidableEq, Repr

/-- Go map read `c.config.Registers[name]` with its ok flag. -/
def lookupReg (regs : List (String × RegisterDef)) (name : String) : Option RegisterDef :=
  match regs with
  | [] => none
  | (k, v) :: rest => if k = name then some v else lookupReg rest name

/-- Big endian decoding `binary.BigEndian.Uint16` of the first two bytes. -/
def bytesToUint16 (b : List ℕ) : ℕ :=
  b.getD 0 0 * 256 + b.getD 1 0

/-- Twos-complement `int16(binary.BigEndian.Uint16(b))`. -/
def bytesToInt16 (b : List ℕ) : ℤ :=
  let u := bytesToUint16 b
  if u < 32768 then (u : ℤ) else (u : ℤ) - 65536

/-- Big endian encoding `binary.BigEndian.PutUint16`. -/
def uint16ToBytes (v : ℕ) : List ℕ :=
  [v / 256 % 256, v % 256]

/-- The rational value of an IEEE 754 binary32 bit pattern (sign, biased
exponent, fraction), for the wire decode of float32 registers.  Infinities
and NaN (biased exponent 255) have no rational value and are mapped to 0;
no claim decodes such a pattern. -/
def f32OfBits (bits : ℕ) : ℚ :=
  let sign : ℕ := bits / 2 ^ 31 % 2
  let expo : ℕ := bits / 2 ^ 23 % 2 ^ 8
  let frac : ℕ := bits % 2 ^ 23
  let mag : ℚ :=
    if expo = 0 then (frac : ℚ) / 2 ^ 149
    else if expo = 255 then 0
    else if 150 ≤ expo then ((2 ^ 23 + frac : ℕ) : ℚ) * (2 : ℚ) ^ (expo - 150)
    else ((2 ^ 23 + frac : ℕ) : ℚ) / (2 : ℚ) ^ (150 - expo)
  if sign = 1 then -mag else mag

/-- Wire decode `bytesToFloat32` (big endian IEEE 754 binary32). -/
def bytesToFloat32 (b : List ℕ) : ℚ :=
  f32OfBits (b.getD 0 0 * 2 ^ 24 + b.getD 1 0 * 2 ^ 16 + b.getD 2 0 * 2 ^ 8 + b.getD 3 0)

/-- Register word count `registerCountFromDataType`: 1 for uint16, int16 and
bool, 2 for float32; any other data type hits `c.log.Fatal`, which logs and
panics (aborting the process), modelled as `none`. -/
def registerCountFromDataType (dt : String) : Option ℕ :=
  if dt = "uint16" then some 1
  else if dt = "int16" then some 1
  else if dt = "float32" then some 2
  else if dt = "bool" then some 1
  else none

/-- Outcome of `ReadValue`: a returned error, a decoded value, or a fatal
log-and-panic that never returns to the caller. -/
inductive ReadOutcome where
  | fatal : ReadOutcome
  | failure : String → ReadOutcome
  | ok : GoVal → ReadOutcome

deriving DecidableEq, Repr

/-- ReadValue: looks the register up (unknown name is a returned error),
computes the word count (an unsupported data type is FATAL here, before the
wire read and before the switch below can return its own unsupported-type
error, which is therefore dead code), performs the wire read (`wire` is the
result of `ReadRegisters`), checks the returned length, decodes by data type
and applies scaling; a scaled register always yields a float32. -/
def ReadValue (regs : List (String × RegisterDef)) (name : String)
    (wire : Except String (List ℕ)) : ReadOutcome :=
  match lookupReg regs name with
  | none => ReadOutcome.failure ("register not configured: " ++ name)
  | some regDef =>
      match registerCountFromDataType regDef.DataType with
      | none => ReadOutcome.fatal
      | some nregisters =>
          match wire with
          | Except.error e => ReadOutcome.failure ("register read failed: " ++ e)
          | Except.ok raw =>
              if raw.length < nregisters * 2 then
                ReadOutcome.failure ("register returned insufficient data: " ++ name)
              else
                if regDef.DataType = "float32" then
                  let v := bytesToFloat32 raw
                  if regDef.Scale = 0 then ReadOutcome.ok (GoVal.VF32 v)
                  else ReadOutcome.ok (GoVal.VF32 (v * regDef.Scale + regDef.Offset))
                else if regDef.DataType = "int16" then
                  let v := bytesToInt16 raw
                  if regDef.Scale = 0 then ReadOutcome.ok (GoVal.VI16 v)
                  else ReadOutcome.ok (GoVal.VF32 ((v : ℚ) * regDef.Scale + regDef.Offset))
                else if regDef.DataType = "uint16" then
                  let v := bytesToUint16 raw
                  if regDef.Scale = 0 then ReadOutcome.ok (GoVal.VU16 v)
                  else ReadOutcome.ok (GoVal.VF32 ((v : ℚ) * regDef.Scale + regDef.Offset))
                else if regDef.DataType = "bool" ∨ regDef.DataType = "binary" then
                  ReadOutcome.ok (GoVal.VBool (bytesToUint16 raw != 0))
                else ReadOutcome.failure ("unsupported data type for register: " ++ name)

/-- Conversion `toFloat64` of the modbus package: numeric types widen to
float64 and booleans map to 1 or 0; anything else (including the nil
interface) is an error.  The Go fixed width cases int8, int32, int64, uint,
uint8, uint32 and uint64 have no GoVal constructor because no caller in the
repository produces them. -/
def toFloat64 (v : GoVal) : Option ℚ :=
  match v with
  | GoVal.VF64 q => some q
  | GoVal.VF32 q => some q
  | GoVal.VInt n => some (n : ℚ)
  | GoVal.VI16 n => some (n : ℚ)
  | GoVal.VU16 n => some (n : ℚ)
  | GoVal.VBool b => some (if b then 1 else 0)
  | GoVal.VNil => none

/-- Go `math.Round`: nearest integer, half away from zero. -/
def goRound (q : ℚ) : ℤ :=
  if 0 ≤ q then ⌊q + 1 / 2⌋ else -⌊-q + 1 / 2⌋

/-- Go `math.MaxFloat32` as an exact rational: (2 - 2^-23) * 2^127. -/
def maxFloat32 : ℚ := (2 ^ 24 - 1) * 2 ^ 104

/-- The scaling inversion applied by WriteValue before the data type switch:
`(value - offset) / scale` when the register is scaled. -/
def scaledWriteInput (reg : RegisterDef) (v0 : ℚ) : ℚ :=
  if reg.Scale ≠ 0 then (v0 - reg.Offset) / reg.Scale else v0

/-- Round to nearest integer, ties to even: the rounding used by the Go
float64 to float32 conversion (IEEE 754 round to nearest even). -/
def rhe (s : ℚ) : ℤ :=
  let f := ⌊s⌋
  let r := s - (f : ℚ)
  if r < 1 / 2 then f
  else if r > 1 / 2 then f + 1
  else if f % 2 = 0 then f else f + 1

/-- The bit pattern of the float32 nearest to a value: the composition of the
Go conversion `float32(valf64)` (round to nearest even) with
`math.Float32bits`.  The exponent is located with the base 2 integer
logarithm, the mantissa is rounded with `rhe`, a mantissa carry moves to the
next binade, magnitudes rounding beyond the largest finite float32 give the
infinity pattern, and magnitudes below the normal range take the subnormal
path. -/
def float32ToBits (q : ℚ) : ℕ :=
  if q = 0 then 0
  else
    let sign : ℕ := if q < 0 then 2 ^ 31 else 0
    let a : ℚ := |q|
    let e : ℤ := Int.log 2 a
    if e < -126 then
      let m : ℤ := rhe (a * (2 : ℚ) ^ (149 : ℤ))
      if m = 2 ^ 23 then sign + 2 ^ 23
      else sign + m.toNat
    else
      let m : ℤ := rhe (a * (2 : ℚ) ^ (23 - e))
      if m = 2 ^ 24 then
        if 127 < e + 1 then sign + 255 * 2 ^ 23
        else sign + (e + 1 + 127).toNat * 2 ^ 23
      else
        if 127 < e then sign + 255 * 2 ^ 23
        else sign + (e + 127).toNat * 2 ^ 23 + (m - 2 ^ 23).toNat

/-- Wire encode of the float32 write path: `float32ToBytes(float32(valf64))`,
the big endian bytes of the bit pattern of the nearest float32. -/
def f32Bytes (q : ℚ) : List ℕ :=
  let bits := float32ToBits q
  [bits / 2 ^ 24 % 256, bits / 2 ^ 16 % 256, bits / 2 ^ 8 % 256, bits % 256]

/-- A rational is a (finite, non-special) IEEE 754 binary32 value: zero, or a
canonical mantissa-exponent decomposition m * 2^E with 0 < natAbs m < 2^24,
-149 <= E <= 104, and either a full-width mantissa or the minimal subnormal
exponent. -/
def isF32 (q : ℚ) : Prop :=
  q = 0 ∨ ∃ m : ℤ, ∃ E : ℤ,
    q = (m : ℚ) * (2 : ℚ) ^ E ∧ m ≠ 0 ∧ m.natAbs < 2 ^ 24 ∧
    -149 ≤ E ∧ E ≤ 104 ∧ (2 ^ 23 ≤ m.natAbs ∨ E = -149)

/-- Outcome of `WriteValue`: a returned error before any wire I/O, or the
register count and bytes handed to `WriteMultipleRegisters`. -/
inductive WriteOutcome where
  | failure : String → WriteOutcome
  | wrote : ℕ → List ℕ → WriteOutcome

deriving DecidableEq, Repr

/-- WriteValue: looks the register up, converts the value to float64, inverts
scaling, then range-validates per data type before the wire write: float32
magnitude against MaxFloat32; int16 by rounding (math.Round, half away from
zero) to int64 and checking [-32768, 32767]; uint16 by rounding and
converting to uint64 (modelled as the amd64 twos-complement wrap, the Go
conversion being implementation dependent for out-of-range values) and
checking 65535; bool writes all ones for non-zero.  Out-of-range values get a
failure outcome and nothing is written. -/
def WriteValue (regs : List (String × RegisterDef)) (name : String)
    (value : GoVal) : WriteOutcome :=
  match lookupReg regs name with
  | none => WriteOutcome.failure ("register not configured: " ++ name)
  | some regDef =>
      match toFloat64 value with
      | none => WriteOutcome.failure "value is not a numeric or bool type"
      | some v0 =>
          let valf64 := scaledWriteInput regDef v0
          if regDef.DataType = "float32" then
            if valf64 > maxFloat32 ∨ valf64 < -maxFloat32 then
              WriteOutcome.failure ("value out of float32 range for register: " ++ name)
            else WriteOutcome.wrote 2 (f32Bytes valf64)
          else if regDef.DataType = "int16" then
            let ival := goRound valf64
            if ival < -32768 ∨ ival > 32767 then
              WriteOutcome.failure ("value out of int16 range for register: " ++ name)
            else WriteOutcome.wrote 1 (uint16ToBytes (ival % 65536).toNat)
          else if regDef.DataType = "uint16" then
            let ival := goRound valf64 % 18446744073709551616
            if ival > 65535 then
              WriteOutcome.failure ("value out of uint16 range for register: " ++ name)
            else WriteOutcome.wrote 1 (uint16ToBytes ival.toNat)
          else if regDef.DataType = "bool" then
            if valf64 ≠ 0 then WriteOutcome.wrote 1 (uint16ToBytes 65535)
            else WriteOutcome.wrote 1 (uint16ToBytes 0)
          else WriteOutcome.failure ("unsupported data type for register: " ++ name)

/-- Encode then decode: the raw bytes produced by WriteValue fed back into
ReadValue, for every data type that reaches the wire. -/
def codecRoundTrip (regs : List (String × RegisterDef)) (name : String)
    (value : GoVal) : Option ReadOutcome :=
  match WriteValue regs name value with
  | WriteOutcome.wrote _ raw => some (ReadValue regs name (Except.ok raw))
  | _ => none

/-- Failure recognizer for write outcomes. -/
def isFailure : WriteOutcome → Bool
  | WriteOutcome.failure _ => true
  | _ => false

/-- A register configured with the unimplemented data type uint32 (listed as
not implemented in the RegisterDef comments). -/
def uint32Reg : RegisterDef :=
  { Address := 1, RegType := "holding", DataType := "uint32", Scale := 0,
    Offset := 0, Description := "", Writable := true, Group := "" }

/-- An int16 register with scale 0.1 and offset 0 (the spec example). -/
def sc01Reg : RegisterDef :=
  { Address := 1, RegType := "holding", DataType := "int16", Scale := 1 / 10,
    Offset := 0, Description := "", Writable := true, Group := "" }

/-- A float32 register with scale 0.1 and offset 0. -/
def sc01F32Reg : RegisterDef :=
  { Address := 1, RegType := "holding", DataType := "float32", Scale := 1 / 10,
    Offset := 0, Description := "", Writable := true, Group := "" }

/-- An unscaled uint16 register. -/
def rawU16Reg : RegisterDef :=
  { Address := 1, RegType := "holding", DataType := "uint16", Scale := 0,
    Offset := 0, Description := "", Writable := true, Group := "" }

/-- An unscaled int16 register. -/
def rawI16Reg : RegisterDef :=
  { Address := 1, RegType := "holding", DataType := "int16", Scale := 0,
    Offset := 0, Description := "", Writable := true, Group := "" }

end modbus

namespace dx2w

/-- JSON values that can appear in the `value` field of a marshalled history
entry: numbers and booleans (Go json.Marshal of the dynamic types stored in
history).  Numeric payloads are modelled as exact rationals; Go emits the
shortest decimal that re-reads to the same float, which is exact for the
decimal-representable values used by every claim. -/
inductive JVal where
  | num : ℚ → JVal
  | jbool : Bool → JVal

deriving DecidableEq, Repr

/-- A marshalled history entry: the `timestamp` field (RFC 3339 with
nanoseconds, round-tripping the instant exactly), the `value` field (absent
when the Go interface is nil, because of the omitempty tag on an interface
field), and the `error` field (absent when the string is empty, because of
omitempty). -/
structure JsonEntry where
  timestamp : ℤ
  value : Option JVal
  error : Option String

deriving DecidableEq, Repr

/-- Marshalling of the dynamic `Value`: every numeric dynamic type becomes a
JSON number, booleans become JSON booleans, the nil interface is omitted. -/
def marshalValue : GoVal → Option JVal
  | GoVal.VNil => none
  | GoVal.VF32 q => some (JVal.num q)
  | GoVal.VF64 q => some (JVal.num q)
  | GoVal.VI16 n => some (JVal.num (n : ℚ))
  | GoVal.VU16 n => some (JVal.num (n : ℚ))
  | GoVal.VInt n => some (JVal.num (n : ℚ))
  | GoVal.VBool b => some (JVal.jbool b)

/-- json.Marshal of one HistoryEntry. -/
def marshalEntry (e : HistoryEntry) : JsonEntry :=
  { timestamp := e.Timestamp,
    value := marshalValue e.Value,
    error := if e.Error = "" then none else some e.Error }

/-- Unmarshalling of a `value` field into the Go `any` field: JSON numbers
always decode to float64 (the dynamic type of the saved value is not
recorded), booleans to bool, an absent field leaves the nil interface. -/
def unmarshalValue : Option JVal → GoVal
  | none => GoVal.VNil
  | some (JVal.num q) => GoVal.VF64 q
  | some (JVal.jbool b) => GoVal.VBool b

/-- json decode of one HistoryEntry (an absent error field leaves the zero
value, the empty string). -/
def unmarshalEntry (j : JsonEntry) : HistoryEntry :=
  { Timestamp := j.timestamp,
    Value := unmarshalValue j.value,
    Error := j.error.getD "" }

/-- saveToDisk: the history map marshalled register by register, entry by
entry (the gzip framing and the atomic rename do not change the content). -/
def saveToDisk (h : HistMap) : List (String × List JsonEntry) :=
  h.map (fun p => (p.1, p.2.map marshalEntry))

/-- loadFromDisk applied to a parsed snapshot. -/
def loadFromDisk (snap : List (String × List JsonEntry)) : HistMap :=
  snap.map (fun p => (p.1, p.2.map unmarshalEntry))

/-- The net effect of the JSON round trip on one dynamic value: booleans and
nil survive, every numeric value is re-typed to float64. -/
def jsonValueRT (v : GoVal) : GoVal :=
  unmarshalValue (marshalValue v)

/-- The poll group of a register: the `group` field, defaulting to the group
named default when empty. -/
def groupOf (reg : modbus.RegisterDef) : String :=
  if reg.Group = "" then "default" else reg.Group

/-- Go map read `groupIntervals[group]` with its ok flag. -/
def lookupInterval (pg : List (String × ℤ)) (k : String) : Option ℤ :=
  match pg with
  | [] => none
  | (g, v) :: rest => if g = k then some v else lookupInterval rest k

/-- The fallback applied in Run: a fully empty poll group map is replaced by
one binding the default group to 660 seconds. -/
def effectivePollGroups (pg : List (String × ℤ)) : List (String × ℤ) :=
  if pg = [] then [("default", 660)] else pg

/-- The interval (in seconds) used for one group by Run: the configured
interval for the group, else the configured interval of the default group,
else the Go integer zero value of the missed map lookup. -/
def groupIntervalSec (pg : List (String × ℤ)) (group : String) : ℤ :=
  let gi := effectivePollGroups pg
  match lookupInterval gi group with
  | some v => v
  | none =>
      match lookupInterval gi "default" with
      | some v => v
      | none => 0

end dx2w

namespace dx2w

theorem histGet_histSet_self (h : HistMap) (name : String) (es : List HistoryEntry) :
    histGet (histSet h name es) name = es := by
  induction h with
  | nil => simp [histGet, histSet]
  | cons kv rest ih =>
      by_cases hk : kv.1 = name
      · simp [histGet, histSet, hk]
      · simp [histGet, histSet, hk, ih]

theorem trimOld_sublist (cutoff : ℤ) (es : List HistoryEntry) :
    (trimOld cutoff es).Sublist es := by
  unfold trimOld
  cases trimIdx cutoff es with
  | none => exact List.Sublist.refl es
  | some i => exact List.drop_sublist i es

theorem trimIdx_isSome_of_mem (cutoff : ℤ) (es : List HistoryEntry)
    (hex : ∃ e ∈ es, cutoff < e.Timestamp) : (trimIdx cutoff es).isSome := by
  induction es with
  | nil => simp at hex
  | cons a t ih =>
      by_cases ha : cutoff < a.Timestamp
      · simp [trimIdx, ha]
      · have : ∃ e ∈ t, cutoff < e.Timestamp := by
          rcases hex with ⟨e, he, hg⟩
          rcases List.mem_cons.mp he with rfl | hmem
          · exact absurd hg ha
          · exact ⟨e, hmem, hg⟩
        have h2 := ih this
        simp [trimIdx, ha]
        cases hmm : trimIdx cutoff t with
        | none => rw [hmm] at h2; simp at h2
        | some i => simp

theorem trimIdx_lt_length (cutoff : ℤ) (es : List HistoryEntry) (i : ℕ)
    (hi : trimIdx cutoff es = some i) : i < es.length := by
  induction es generalizing i with
  | nil => simp [trimIdx] at hi
  | cons a t ih =>
      by_cases ha : cutoff < a.Timestamp
      · simp [trimIdx, ha] at hi
        subst hi
        simp
      · simp [trimIdx, ha] at hi
        cases hmm : trimIdx cutoff t with
        | none => rw [hmm] at hi; simp at hi
        | some j =>
            rw [hmm] at hi
            simp at hi
            subst hi
            have := ih j hmm
            simpa using Nat.succ_lt_succ this

theorem mem_trimOld_gt (cutoff : ℤ) (es : List HistoryEntry)
    (hsort : es.Pairwise (fun a b => a.Timestamp ≤ b.Timestamp))
    (hex : ∃ e ∈ es, cutoff < e.Timestamp) :
    ∀ x ∈ trimOld cutoff es, cutoff < x.Timestamp := by
  induction es with
  | nil => simp at hex
  | cons a t ih =>
      by_cases ha : cutoff < a.Timestamp
      · have htrim : trimOld cutoff (a :: t) = a :: t := by
          simp [trimOld, trimIdx, ha]
        rw [htrim]
        intro x hx
        rcases List.mem_cons.mp hx with rfl | hmem
        · exact ha
        · have hle : a.Timestamp ≤ x.Timestamp :=
            (List.pairwise_cons.mp hsort).1 x hmem
          exact lt_of_lt_of_le ha hle
      · have hext : ∃ e ∈ t, cutoff < e.Timestamp := by
          rcases hex with ⟨e, he, hg⟩
          rcases List.mem_cons.mp he with rfl | hmem
          · exact absurd hg ha
          · exact ⟨e, hmem, hg⟩
        have hsome := trimIdx_isSome_of_mem cutoff t hext
        cases hmm : trimIdx cutoff t with
        | none => rw [hmm] at hsome; simp at hsome
        | some i =>
            have htrim : trimOld cutoff (a :: t) = t.drop i := by
              simp [trimOld, trimIdx, ha, hmm]
            have htrim2 : trimOld cutoff t = t.drop i := by
              simp [trimOld, hmm]
            rw [htrim]
            intro x hx
            exact ih ((List.pairwise_cons.mp hsort).2) hext x (htrim2 ▸ hx)

theorem onceValued_last (es : List HistoryEntry) (hinv : onceValued es)
    (a : HistoryEntry) (ha : a ∈ es) (hv : a.Value ≠ GoVal.VNil) :
    prevValueOf es ≠ GoVal.VNil := by
  induction es with
  | nil => simp at ha
  | cons b t ih =>
      cases t with
      | nil =>
          have : a = b := by simpa using ha
          subst this
          simpa [prevValueOf] using hv
      | cons c t2 =>
          have hlast : prevValueOf (b :: c :: t2) = prevValueOf (c :: t2) := by
            simp [prevValueOf, List.getLast?_cons_cons]
          rw [hlast]
          rcases List.mem_cons.mp ha with rfl | hmem
          · have hR := (List.pairwise_cons.mp hinv).1
            have hmemlast : ∃ e, (c :: t2).getLast? = some e := by
              cases h : (c :: t2).getLast? with
              | none => simp [List.getLast?] at h
              | some e => exact ⟨e, rfl⟩
            rcases hmemlast with ⟨e, he⟩
            have hemem : e ∈ c :: t2 := by
              rcases List.mem_getLast?_eq_getLast (Option.mem_def.mpr he) with ⟨hne, rfl⟩
              exact List.getLast_mem hne
            have : e.Value ≠ GoVal.VNil := hR e hemem hv
            simpa [prevValueOf, he] using this
          · exact ih ((List.pairwise_cons.mp hinv).2) hmem

theorem pollStep_histGet (name : String) (res : Except String GoVal)
    (tEntry nowCheck nowTrim : ℤ) (h : HistMap) :
    histGet (pollStep name res tEntry nowCheck nowTrim h) name =
      trimOld (nowTrim - dayNs)
        (histGet h name ++ [pollEntry name res tEntry nowCheck h]) :=
  histGet_histSet_self h name _

theorem pollEntry_ok (name : String) (v : GoVal) (tEntry nowCheck : ℤ) (h : HistMap) :
    pollEntry name (Except.ok v) tEntry nowCheck h =
      { Timestamp := tEntry, Value := v, Error := "" } := by
  simp [pollEntry]

theorem pollEntry_error (name : String) (m : String) (tEntry nowCheck : ℤ) (h : HistMap) :
    pollEntry name (Except.error m) tEntry nowCheck h =
      { Timestamp := tEntry, Value := prevValueOf (histGet h name),
        Error := "value is nil" } := by
  simp [pollEntry, invalidValueErrorDetection]

theorem pollEntry_timestamp (name : String) (res : Except String GoVal)
    (tEntry nowCheck : ℤ) (h : HistMap) :
    (pollEntry name res tEntry nowCheck h).Timestamp = tEntry := by
  cases res with
  | ok v => simp [pollEntry_ok]
  | error m => simp [pollEntry_error]

/-- Claim C2: once a register has stored at least one entry with a non-nil
value, every later entry also has a non-nil value; a poll whose read failed
appends an entry carrying the immediately preceding entry value forward
together with a non-empty error string, and that entry is the new last entry
of the register history. -/
theorem pollStep_once_valued_invariant (name : String) (res : Except String GoVal)
    (tEntry nowCheck nowTrim : ℤ) (h : HistMap)
    (hinv : onceValued (histGet h name))
    (hok : ∀ v, res = Except.ok v → v ≠ GoVal.VNil)
    (hwin : nowTrim - dayNs < tEntry) :
    onceValued (histGet (pollStep name res tEntry nowCheck nowTrim h) name) ∧
    (∀ m, res = Except.error m →
      (histGet (pollStep name res tEntry nowCheck nowTrim h) name).getLast? =
        some { Timestamp := tEntry, Value := prevValueOf (histGet h name),
               Error := "value is nil" } ∧
      "value is nil" ≠ "") := by
  rw [pollStep_histGet]
  constructor
  · apply List.Pairwise.sublist (trimOld_sublist _ _)
    rw [List.pairwise_append]
    refine ⟨hinv, by simp, ?_⟩
    intro a ha b hb
    have hbe : b = pollEntry name res tEntry nowCheck h := by simpa using hb
    subst hbe
    intro hav
    cases res with
    | ok v =>
        rw [pollEntry_ok]
        exact hok v rfl
    | error m =>
        rw [pollEntry_error]
        exact onceValued_last (histGet h name) hinv a ha hav
  · intro m hm
    subst hm
    refine ⟨?_, by decide⟩
    rw [pollEntry_error]
    set es := histGet h name with hes
    set entry : HistoryEntry :=
      { Timestamp := tEntry, Value := prevValueOf es, Error := "value is nil" } with hentry
    have hexists : ∃ e ∈ es ++ [entry], nowTrim - dayNs < e.Timestamp := by
      refine ⟨entry, by simp, ?_⟩
      rw [hentry]
      exact hwin
    have hsome := trimIdx_isSome_of_mem (nowTrim - dayNs) (es ++ [entry]) hexists
    cases hmm : trimIdx (nowTrim - dayNs) (es ++ [entry]) with
    | none => rw [hmm] at hsome; simp at hsome
    | some i =>
        have hilt := trimIdx_lt_length (nowTrim - dayNs) (es ++ [entry]) i hmm
        have hile : i ≤ es.length := by
          simpa using Nat.lt_succ_iff.mp (by simpa using hilt)
        have htrim : trimOld (nowTrim - dayNs) (es ++ [entry]) = es.drop i ++ [entry] := by
          simp [trimOld, hmm, List.drop_append_of_le_length hile]
        rw [htrim, List.getLast?_concat]

/-- Claim C3: after a poll step for a register whose prior history is ordered
by timestamp, all times at most the entry time and the trim time within 24
hours of it, every retained entry of that register (as returned by ListAll)
has a timestamp inside the 24 hour window ending at the trim time; strictly
older entries are dropped. -/
theorem pollStep_retention (name : String) (res : Except String GoVal)
    (tEntry nowCheck nowTrim : ℤ) (h : HistMap)
    (hsort : (histGet h name).Pairwise (fun a b => a.Timestamp ≤ b.Timestamp))
    (hpast : ∀ e ∈ histGet h name, e.Timestamp ≤ tEntry)
    (hle : tEntry ≤ nowTrim)
    (hwin : nowTrim - dayNs < tEntry) :
    ∀ e ∈ ListAll (pollStep name res tEntry nowCheck nowTrim h) name,
      nowTrim - dayNs < e.Timestamp ∧ e.Timestamp ≤ nowTrim := by
  intro e he
  rw [ListAll, pollStep_histGet] at he
  set es := histGet h name with hes
  set entry := pollEntry name res tEntry nowCheck h with hentry
  have hts : entry.Timestamp = tEntry := pollEntry_timestamp name res tEntry nowCheck h
  have hsort2 : (es ++ [entry]).Pairwise (fun a b => a.Timestamp ≤ b.Timestamp) := by
    rw [List.pairwise_append]
    refine ⟨hsort, by simp, ?_⟩
    intro a ha b hb
    have hbe : b = entry := by simpa using hb
    subst hbe
    rw [hts]
    exact hpast a ha
  have hexists : ∃ x ∈ es ++ [entry], nowTrim - dayNs < x.Timestamp :=
    ⟨entry, by simp, by rw [hts]; exact hwin⟩
  constructor
  · exact mem_trimOld_gt (nowTrim - dayNs) (es ++ [entry]) hsort2 hexists e he
  · have hmem : e ∈ es ++ [entry] :=
      (trimOld_sublist (nowTrim - dayNs) (es ++ [entry])).mem he
    rcases List.mem_append.mp hmem with hmem2 | hmem2
    · exact le_trans (hpast e hmem2) hle
    · have : e = entry := by simpa using hmem2
      subst this
      rw [hts]
      exact hle

/-- Claim C1 (code bug): a successful read is appended without ever running
the anomaly validity check, because `pollRegisters` consults
`invalidValueErrorDetection` only when `ReadValue` already returned an error.
With a prior good entry of 35.0 for the water temperature register
`mix_water_temp`, a successfully decoded 5.0 (below the 68 F = 20 C bound) is
stored as the value with an empty error, even though the configured check
rejects 5.0 with the error shown in the second conjunct.  The claim (and the
spec) instead require a stored entry with value 35.0 and a non-empty error. -/
theorem pollStep_skips_anomaly_check_on_successful_read :
    pollStep "mix_water_temp" (Except.ok (GoVal.VF32 5)) 1000 1000 1000 waterHist =
      [("mix_water_temp",
        [⟨0, GoVal.VF32 35, ""⟩, ⟨1000, GoVal.VF32 5, ""⟩])] ∧
    invalidValueErrorDetection "mix_water_temp" (GoVal.VF32 5) 1000 waterHist =
      some "water temp too low" := by
  constructor
  · decide
  · decide

theorem pollStep_once_valued_invariant_witness :
    onceValued (histGet (pollStep "r" (Except.error "boom") 10 20 30 oneGoodHist) "r") ∧
    (∀ m, (Except.error "boom" : Except String GoVal) = Except.error m →
      (histGet (pollStep "r" (Except.error "boom") 10 20 30 oneGoodHist) "r").getLast? =
        some { Timestamp := 10, Value := prevValueOf (histGet oneGoodHist "r"),
               Error := "value is nil" } ∧
      "value is nil" ≠ "") := by
  exact pollStep_once_valued_invariant "r" (Except.error "boom") 10 20 30 oneGoodHist
    (by simp [onceValued, histGet, oneGoodHist])
    (by intro v hv; exact Except.noConfusion hv)
    (by decide)

theorem pollStep_retention_witness :
    ((108000000000000 : ℤ) - dayNs < 54000000000000 ∧
      (54000000000000 : ℤ) ≤ 108000000000000) ∧
    ListAll (pollStep "r" (Except.ok (GoVal.VF32 3)) 108000000000000 108000000000000
        108000000000000 thirtyHourHist) "r" =
      [⟨54000000000000, GoVal.VF32 2, ""⟩, ⟨108000000000000, GoVal.VF32 3, ""⟩] := by
  constructor
  · exact pollStep_retention "r" (Except.ok (GoVal.VF32 3)) 108000000000000 108000000000000
      108000000000000 thirtyHourHist
      (by simp [thirtyHourHist, histGet])
      (by intro e he; fin_cases he <;> decide)
      (by decide) (by decide)
      ⟨54000000000000, GoVal.VF32 2, ""⟩ (by decide)
  · decide

theorem meanLoop_of_all_skipped (cutoff : ℤ) (sum : ℚ) (count : ℕ)
    (es : List HistoryEntry) (hall : ∀ e ∈ es, skipEntry cutoff e) :
    meanLoop cutoff sum count es = (sum, count) := by
  induction es with
  | nil => rfl
  | cons e rest ih =>
      have hskip : skipEntry cutoff e := hall e (List.mem_cons_self e rest)
      have hrest : ∀ x ∈ rest, skipEntry cutoff x := fun x hx => hall x (List.mem_cons_of_mem e hx)
      simp [meanLoop, hskip, ih hrest]

theorem percentLoop_of_all_skipped (cutoff : ℤ) (total onCount : ℤ)
    (es : List HistoryEntry) (hall : ∀ e ∈ es, skipEntry cutoff e) :
    percentLoop cutoff total onCount es = (total, onCount) := by
  induction es with
  | nil => rfl
  | cons e rest ih =>
      have hskip : skipEntry cutoff e := hall e (List.mem_cons_self e rest)
      have hrest : ∀ x ∈ rest, skipEntry cutoff x := fun x hx => hall x (List.mem_cons_of_mem e hx)
      simp [percentLoop, hskip, ih hrest]

theorem medianLoop_of_all_skipped (cutoff : ℤ) (nums : List ℚ)
    (es : List HistoryEntry) (hall : ∀ e ∈ es, skipEntry cutoff e) :
    medianLoop cutoff nums es = nums := by
  induction es with
  | nil => rfl
  | cons e rest ih =>
      have hskip : skipEntry cutoff e := hall e (List.mem_cons_self e rest)
      have hrest : ∀ x ∈ rest, skipEntry cutoff x := fun x hx => hall x (List.mem_cons_of_mem e hx)
      simp [medianLoop, hskip, ih hrest]

/-- Claim C7: when no entry of the register inside `[now - interval, now]`
carries an empty error and a non-nil value, each of Mean, Median and PercentOn
returns an explicit error instead of a zero value. -/
theorem aggregations_fail_on_no_data (h : HistMap) (name : String) (interval now : ℤ)
    (hall : ∀ e ∈ histGet h name, skipEntry (now - interval) e) :
    (∃ m, Mean h name interval now = Except.error m) ∧
    (∃ m, Median h name interval now = Except.error m) ∧
    (∃ m, PercentOn h name interval now = Except.error m) := by
  cases hnil : histGet h name with
  | nil =>
      refine ⟨⟨"no history for register " ++ name, ?_⟩,
              ⟨"no history for register " ++ name, ?_⟩,
              ⟨"no history for register " ++ name, ?_⟩⟩ <;>
        simp [Mean, Median, PercentOn, hnil]
  | cons e rest =>
      rw [hnil] at hall
      refine ⟨⟨"no numeric values for register " ++ name, ?_⟩,
              ⟨"no numeric values for register " ++ name, ?_⟩,
              ⟨"no valid entries for register " ++ name, ?_⟩⟩
      · simp [Mean, hnil, meanLoop_of_all_skipped (now - interval) 0 0 (e :: rest) hall]
      · simp [Median, hnil, medianLoop_of_all_skipped (now - interval) [] (e :: rest) hall]
      · simp [PercentOn, hnil, percentLoop_of_all_skipped (now - interval) 0 0 (e :: rest) hall]

theorem aggregations_fail_on_no_data_witness :
    (∃ m, Mean [("r", [⟨0, GoVal.VF32 1, "bad read"⟩])] "r" 100 1000 = Except.error m) ∧
    (∃ m, Median [("r", [⟨0, GoVal.VF32 1, "bad read"⟩])] "r" 100 1000 = Except.error m) ∧
    (∃ m, PercentOn [("r", [⟨0, GoVal.VF32 1, "bad read"⟩])] "r" 100 1000 = Except.error m) := by
  exact aggregations_fail_on_no_data [("r", [⟨0, GoVal.VF32 1, "bad read"⟩])] "r" 100 1000
    (by intro e he; fin_cases he; left; decide)

/-- Claim C8: Mean and Median of [1, 2, 3, 4, 5] are 3; PercentOn of 3 true
and 7 false boolean entries is 30; the even-count median of [1, 2, 3, 4] is
the midpoint average 2.5 and the odd-count median picks the sorted middle. -/
theorem aggregation_concrete_values :
    Mean fiveNumHist "num" 0 0 = Except.ok 3 ∧
    Median fiveNumHist "num" 0 0 = Except.ok 3 ∧
    PercentOn boolHist "b" 0 0 = Except.ok 30 ∧
    Median fourNumHist "num" 0 0 = Except.ok (5 / 2) := by
  refine ⟨?_, ?_, ?_, ?_⟩
  · simp [Mean, fiveNumHist, histGet, meanLoop, skipEntry, toFloat64]
    norm_num
  · simp [Median, fiveNumHist, histGet, medianLoop, skipEntry, toFloat64,
      sortNums, insertSorted]
  · simp [PercentOn, boolHist, histGet, percentLoop, skipEntry]
    norm_num
  · simp [Median, fourNumHist, histGet, medianLoop, skipEntry, toFloat64,
      sortNums, insertSorted]
    norm_num

end dx2w

namespace modbus

/-- Claim C9 (code bug): a runtime read of a register whose definition has an
unsupported wire type does NOT return a ConfigError to the caller: the word
count helper hits log.Fatal (which panics and aborts the process) before the
wire read, whatever the wire returns, so the unsupported-data-type error
return inside ReadValue is unreachable for such registers.  WriteValue, by
contrast, does return the error non-fatally, showing the intended behavior. -/
theorem ReadValue_fatal_on_unsupported_data_type :
    (∀ wire : Except String (List ℕ),
      ReadValue [("r", uint32Reg)] "r" wire = ReadOutcome.fatal) ∧
    WriteValue [("r", uint32Reg)] "r" (GoVal.VF64 1) =
      WriteOutcome.failure ("unsupported data type for register: " ++ "r") := by
  constructor
  · intro wire
    simp [ReadValue, lookupReg, uint32Reg, registerCountFromDataType]
  · simp [WriteValue, lookupReg, uint32Reg, toFloat64, scaledWriteInput]

theorem goRound_intCast (k : ℤ) : goRound (k : ℚ) = k := by
  unfold goRound
  by_cases hk : 0 ≤ (k : ℚ)
  · rw [if_pos hk]
    have : ((k : ℚ) + 1 / 2) = (1 / 2 + (k : ℚ)) := by ring
    rw [this, Int.floor_add_int]
    norm_num
  · rw [if_neg hk]
    have : (-(k : ℚ) + 1 / 2) = (1 / 2 + ((-k : ℤ) : ℚ)) := by push_cast; ring
    rw [this, Int.floor_add_int]
    norm_num

theorem bytesToUint16_uint16ToBytes (m : ℕ) (hm : m < 65536) :
    bytesToUint16 (uint16ToBytes m) = m := by
  simp [bytesToUint16, uint16ToBytes]
  omega

theorem bytesToInt16_of_emod (k : ℤ) (hlo : -32768 ≤ k) (hhi : k ≤ 32767) :
    bytesToInt16 (uint16ToBytes (k % 65536).toNat) = k := by
  have h0 : (0 : ℤ) ≤ k % 65536 := Int.emod_nonneg k (by norm_num)
  have h2 : (k % 65536).toNat < 65536 := by omega
  rw [bytesToInt16, bytesToUint16_uint16ToBytes _ h2]
  by_cases hc : (k % 65536).toNat < 32768
  · simp only [if_pos hc]
    omega
  · simp only [if_neg hc]
    omega

theorem uint16ToBytes_length (v : ℕ) : (uint16ToBytes v).length = 2 := rfl

/-- ReadValue never returns the nil interface as a successful value: every
success branch wraps a concrete float32, int16, uint16 or bool.  This
discharges, for the polling step, the hypothesis that a successful read
carries a non-nil value. -/
theorem ReadValue_ok_not_nil (regs : List (String × RegisterDef)) (name : String)
    (wire : Except String (List ℕ)) (v : GoVal)
    (hv : ReadValue regs name wire = ReadOutcome.ok v) : v ≠ GoVal.VNil := by
  unfold ReadValue at hv
  repeat' split at hv
  all_goals intro hc
  all_goals subst hc
  all_goals cases hv

theorem rhe_intCast (k : ℤ) : rhe (k : ℚ) = k := by
  unfold rhe
  simp

theorem f32_fields (sgn E150 F : ℕ) (hs : sgn = 0 ∨ sgn = 2 ^ 31)
    (h2 : E150 ≤ 254) (hF : F < 2 ^ 23) :
    ((sgn + E150 * 2 ^ 23 + F) / 2 ^ 31 % 2 = if sgn = 0 then 0 else 1) ∧
    ((sgn + E150 * 2 ^ 23 + F) / 2 ^ 23 % 2 ^ 8 = E150) ∧
    ((sgn + E150 * 2 ^ 23 + F) % 2 ^ 23 = F) := by
  rcases hs with h | h <;> subst h <;> refine ⟨?_, ?_, ?_⟩ <;> simp <;> omega

theorem f32OfBits_zero : f32OfBits 0 = 0 := by
  norm_num [f32OfBits]

theorem f32OfBits_add_sign (b : ℕ) (hb : b < 2 ^ 31) :
    f32OfBits (2 ^ 31 + b) = -f32OfBits b := by
  unfold f32OfBits
  have h1 : (2 ^ 31 + b) / 2 ^ 31 % 2 = 1 := by omega
  have h0 : b / 2 ^ 31 % 2 = 0 := by omega
  have h2 : (2 ^ 31 + b) / 2 ^ 23 % 2 ^ 8 = b / 2 ^ 23 % 2 ^ 8 := by omega
  have h3 : (2 ^ 31 + b) % 2 ^ 23 = b % 2 ^ 23 := by omega
  rw [h1, h0, h2, h3]
  simp

theorem float32ToBits_neg (q : ℚ) (hpos : 0 < q) :
    float32ToBits (-q) = 2 ^ 31 + float32ToBits q := by
  unfold float32ToBits
  rw [if_neg (neg_ne_zero.mpr (ne_of_gt hpos)), if_neg (ne_of_gt hpos),
    if_pos (neg_neg_of_pos hpos), if_neg (not_lt.mpr (le_of_lt hpos)), abs_neg]
  dsimp only
  split_ifs <;> omega

theorem f32_roundtrip_pos (q : ℚ) (hpos : 0 < q) (m E : ℤ)
    (hqm : q = (m : ℚ) * (2 : ℚ) ^ E) (hm0 : m ≠ 0) (hmlt : m.natAbs < 2 ^ 24)
    (hElo : -149 ≤ E) (hEhi : E ≤ 104) (hcanon : 2 ^ 23 ≤ m.natAbs ∨ E = -149) :
    float32ToBits q < 2 ^ 31 ∧ f32OfBits (float32ToBits q) = q := by
  have h2pos : (0 : ℚ) < (2 : ℚ) ^ E := zpow_pos (by norm_num) E
  have hq_ne : q ≠ 0 := ne_of_gt hpos
  set M : ℕ := m.natAbs with hM
  have hmQ_pos : 0 < (m : ℚ) := by
    have hmq : (m : ℚ) = q / (2 : ℚ) ^ E := by
      rw [hqm]
      field_simp
    rw [hmq]
    exact div_pos hpos h2pos
  have hm_pos : 0 < m := by exact_mod_cast hmQ_pos
  have hmM : (m : ℚ) = (M : ℚ) := by
    rw [hM, Int.cast_natAbs, abs_of_pos hm_pos]
  have habs : |q| = (M : ℚ) * (2 : ℚ) ^ E := by
    rw [abs_of_pos hpos, hqm, hmM]
  have hM0 : 0 < M := Int.natAbs_pos.mpr hm0
  have hapos : (0 : ℚ) < |q| := abs_pos.mpr hq_ne
  by_cases hMge : 2 ^ 23 ≤ M
  · -- normal range
    have hMc_lb : (8388608 : ℚ) ≤ (M : ℚ) := by
      exact_mod_cast (by omega : (8388608 : ℕ) ≤ M)
    have hMc_ub : (M : ℚ) < 16777216 := by
      exact_mod_cast (by omega : M < (16777216 : ℕ))
    have hlb : (2 : ℚ) ^ (E + 23) ≤ |q| := by
      rw [habs, zpow_add₀ (two_ne_zero), show ((2 : ℚ) ^ (23 : ℤ)) = 8388608 by norm_num]
      nlinarith
    have hub : |q| < (2 : ℚ) ^ (E + 24) := by
      rw [habs, zpow_add₀ (two_ne_zero), show ((2 : ℚ) ^ (24 : ℤ)) = 16777216 by norm_num]
      nlinarith
    have hlog : Int.log 2 |q| = E + 23 := by
      have h1 : E + 23 ≤ Int.log 2 |q| := by
        apply (Int.zpow_le_iff_le_log (by norm_num) hapos).mp
        rw [show (((2 : ℕ) : ℚ)) = (2 : ℚ) by norm_num]
        exact hlb
      have h2 : Int.log 2 |q| < E + 24 := by
        apply (Int.lt_zpow_iff_log_lt (by norm_num) hapos).mp
        rw [show (((2 : ℕ) : ℚ)) = (2 : ℚ) by norm_num]
        exact hub
      omega
    have he_not : ¬ Int.log 2 |q| < -126 := by omega
    have hprod : |q| * (2 : ℚ) ^ (23 - Int.log 2 |q|) = ((M : ℤ) : ℚ) := by
      rw [hlog, habs, show (23 : ℤ) - (E + 23) = -E by ring, mul_assoc,
        ← zpow_add₀ (two_ne_zero : (2 : ℚ) ≠ 0), show E + -E = 0 by ring, zpow_zero, mul_one]
      push_cast
      ring
    have hm_val : rhe (|q| * (2 : ℚ) ^ (23 - Int.log 2 |q|)) = (M : ℤ) := by
      rw [hprod, rhe_intCast]
    have hMne24 : (M : ℤ) ≠ 2 ^ 24 := by omega
    have he127 : ¬ 127 < Int.log 2 |q| := by omega
    have hbits : float32ToBits q = 0 + (E + 150).toNat * 2 ^ 23 + (M - 2 ^ 23) := by
      simp only [float32ToBits]
      rw [if_neg hq_ne]
      rw [if_neg he_not, hm_val, if_neg hMne24, if_neg he127, hlog,
        if_neg (not_lt.mpr (le_of_lt hpos))]
      omega
    constructor
    · rw [hbits]
      omega
    · rw [hbits]
      obtain ⟨hf1, hf2, hf3⟩ := f32_fields 0 (E + 150).toNat (M - 2 ^ 23)
        (Or.inl rfl) (by omega) (by omega)
      simp only [f32OfBits]
      rw [hf1, hf2, hf3]
      have hmf : ((2 ^ 23 + (M - 2 ^ 23) : ℕ) : ℚ) = (M : ℚ) := by
        exact_mod_cast congrArg (fun n : ℕ => (n : ℚ)) (by omega : 2 ^ 23 + (M - 2 ^ 23) = M)
      by_cases hE0 : 0 ≤ E
      · have h150 : 150 ≤ (E + 150).toNat := by omega
        rw [if_neg (by omega : ¬ (E + 150).toNat = 0), if_neg (by omega : ¬ (E + 150).toNat = 255),
          if_pos h150, hmf, show (E + 150).toNat - 150 = E.toNat by omega]
        have hzp : (2 : ℚ) ^ (E.toNat : ℕ) = (2 : ℚ) ^ E := by
          rw [← zpow_natCast (2 : ℚ) E.toNat, Int.toNat_of_nonneg hE0]
        rw [hzp]
        simp [hqm, hmM]
      · have h150 : ¬ 150 ≤ (E + 150).toNat := by omega
        rw [if_neg (by omega : ¬ (E + 150).toNat = 0), if_neg (by omega : ¬ (E + 150).toNat = 255),
          if_neg h150, hmf, show 150 - (E + 150).toNat = (-E).toNat by omega]
        have hzp : (2 : ℚ) ^ ((-E).toNat : ℕ) = (2 : ℚ) ^ (-E : ℤ) := by
          rw [← zpow_natCast (2 : ℚ) (-E).toNat, Int.toNat_of_nonneg (by omega)]
        rw [div_eq_mul_inv, hzp, ← zpow_neg, neg_neg]
        simp [hqm, hmM]
  · -- subnormal range
    have hE149 : E = -149 := by
      rcases hcanon with h | h
      · exact absurd h hMge
      · exact h
    subst hE149
    have hMc_ub : (M : ℚ) < 8388608 := by
      exact_mod_cast (by omega : M < (8388608 : ℕ))
    have hub : |q| < (2 : ℚ) ^ (-126 : ℤ) := by
      rw [habs]
      have h2p : (0 : ℚ) < (2 : ℚ) ^ (-149 : ℤ) := zpow_pos (by norm_num) _
      calc (M : ℚ) * (2 : ℚ) ^ (-149 : ℤ) < 8388608 * (2 : ℚ) ^ (-149 : ℤ) :=
            mul_lt_mul_of_pos_right hMc_ub h2p
        _ = (2 : ℚ) ^ (-126 : ℤ) := by
            rw [show (8388608 : ℚ) = (2 : ℚ) ^ (23 : ℤ) by norm_num,
              ← zpow_add₀ (two_ne_zero : (2 : ℚ) ≠ 0)]
            norm_num
    have hlog_lt : Int.log 2 |q| < -126 := by
      apply (Int.lt_zpow_iff_log_lt (by norm_num) hapos).mp
      rw [show (((2 : ℕ) : ℚ)) = (2 : ℚ) by norm_num]
      exact hub
    have hprod : |q| * (2 : ℚ) ^ (149 : ℤ) = ((M : ℤ) : ℚ) := by
      rw [habs, mul_assoc, ← zpow_add₀ (two_ne_zero : (2 : ℚ) ≠ 0),
        show (-149 : ℤ) + 149 = 0 by ring, zpow_zero, mul_one]
      push_cast
      ring
    have hm_val : rhe (|q| * (2 : ℚ) ^ (149 : ℤ)) = (M : ℤ) := by
      rw [hprod, rhe_intCast]
    have hMne : (M : ℤ) ≠ 2 ^ 23 := by omega
    have hbits : float32ToBits q = 0 + 0 * 2 ^ 23 + M := by
      simp only [float32ToBits]
      rw [if_neg hq_ne]
      rw [if_pos hlog_lt, hm_val, if_neg hMne, if_neg (not_lt.mpr (le_of_lt hpos))]
      omega
    constructor
    · rw [hbits]
      omega
    · rw [hbits]
      obtain ⟨hf1, hf2, hf3⟩ := f32_fields 0 0 M (Or.inl rfl) (by norm_num) (by omega)
      simp only [f32OfBits]
      rw [hf1, hf2, hf3, if_pos rfl]
      have hzp : (2 : ℚ) ^ ((149 : ℕ)) = (2 : ℚ) ^ ((149 : ℕ) : ℤ) := (zpow_natCast _ _).symm
      rw [div_eq_mul_inv, hzp, ← zpow_neg]
      rw [hqm, hmM]
      norm_num

theorem f32OfBits_float32ToBits (q : ℚ) (hq : isF32 q) :
    float32ToBits q < 2 ^ 32 ∧ f32OfBits (float32ToBits q) = q := by
  rcases hq with hq0 | ⟨m, E, hqm, hm0, hmlt, hElo, hEhi, hcanon⟩
  · subst hq0
    have hz : float32ToBits 0 = 0 := rfl
    rw [hz]
    exact ⟨by norm_num, f32OfBits_zero⟩
  · have hqne : q ≠ 0 := by
      rw [hqm]
      exact mul_ne_zero (Int.cast_ne_zero.mpr hm0) (ne_of_gt (zpow_pos (by norm_num) E))
    rcases lt_trichotomy q 0 with hneg | hzero | hpos
    · have hp : 0 < -q := by linarith
      have hqm2 : -q = ((-m : ℤ) : ℚ) * (2 : ℚ) ^ E := by
        rw [hqm]
        push_cast
        ring
      have h := f32_roundtrip_pos (-q) hp (-m) E hqm2 (neg_ne_zero.mpr hm0)
        (by rw [Int.natAbs_neg]; exact hmlt) hElo hEhi
        (by rw [Int.natAbs_neg]; exact hcanon)
      have hbits : float32ToBits q = 2 ^ 31 + float32ToBits (-q) := by
        have hx := float32ToBits_neg (-q) hp
        rw [neg_neg] at hx
        exact hx
      refine ⟨?_, ?_⟩
      · rw [hbits]
        have := h.1
        omega
      · rw [hbits, f32OfBits_add_sign _ h.1, h.2]
        ring
    · exact absurd hzero hqne
    · have h := f32_roundtrip_pos q hpos m E hqm hm0 hmlt hElo hEhi hcanon
      exact ⟨by have := h.1; omega, h.2⟩

theorem f32Bytes_length (q : ℚ) : (f32Bytes q).length = 4 := rfl

theorem bytesToFloat32_f32Bytes (q : ℚ) (hlt : float32ToBits q < 2 ^ 32) :
    bytesToFloat32 (f32Bytes q) = f32OfBits (float32ToBits q) := by
  unfold bytesToFloat32 f32Bytes
  congr 1
  simp only [List.getD_cons_zero, List.getD_cons_succ]
  omega

/-- Claim C5 (amended): for a scaled register (scale not zero), Decode
returns raw*scale + offset as a float32 and Encode computes
(value - offset) / scale, rounded to the wire representation before the
write.  For the integer wire types the raw is rounded to the nearest integer
(math.Round, half away from zero), and the round trip Decode(Encode(v)) == v
holds exactly when (v - offset) / scale is an integer in the wire range (an
equivalence: off-grid values come back as the nearest raw step, as the
counterexample shows).  For the float32 wire type the raw is rounded to the
nearest IEEE 754 binary32 value (the Go float32 conversion, ties to even), so
the round trip is exact within float32 precision: exact whenever
(v - offset) / scale is itself a representable binary32 value inside the
MaxFloat32 range check.  In particular raw 250 with scale 0.1 decodes to 25.0
and encoding 25.0 re-derives raw 250, on both wire types. -/
theorem codec_round_trip_on_scale_grid (name : String) (reg : RegisterDef)
    (v : ℚ) (hscale : reg.Scale ≠ 0) :
    (reg.DataType = "int16" →
      (codecRoundTrip [(name, reg)] name (GoVal.VF64 v) =
          some (ReadOutcome.ok (GoVal.VF32 v)) ↔
        ∃ k : ℤ, (v - reg.Offset) / reg.Scale = (k : ℚ) ∧ -32768 ≤ k ∧ k ≤ 32767)) ∧
    (reg.DataType = "uint16" →
      (codecRoundTrip [(name, reg)] name (GoVal.VF64 v) =
          some (ReadOutcome.ok (GoVal.VF32 v)) ↔
        ∃ k : ℤ, (v - reg.Offset) / reg.Scale = (k : ℚ) ∧ 0 ≤ k ∧ k ≤ 65535)) ∧
    (reg.DataType = "float32" → isF32 ((v - reg.Offset) / reg.Scale) →
      ¬ ((v - reg.Offset) / reg.Scale > maxFloat32 ∨
          (v - reg.Offset) / reg.Scale < -maxFloat32) →
      codecRoundTrip [(name, reg)] name (GoVal.VF64 v) =
        some (ReadOutcome.ok (GoVal.VF32 v))) := by
  have hsc : scaledWriteInput reg v = (v - reg.Offset) / reg.Scale := by
    unfold scaledWriteInput
    rw [if_pos hscale]
  refine ⟨?_, ?_, ?_⟩
  · intro hdt
    constructor
    · intro hrt
      by_cases hc : goRound (scaledWriteInput reg v) < -32768 ∨
          goRound (scaledWriteInput reg v) > 32767
      · have hw : WriteValue [(name, reg)] name (GoVal.VF64 v) =
            WriteOutcome.failure ("value out of int16 range for register: " ++ name) := by
          simp [WriteValue, lookupReg, toFloat64, hdt, hc]
        simp [codecRoundTrip, hw] at hrt
      · have hlo : -32768 ≤ goRound (scaledWriteInput reg v) := by omega
        have hhi : goRound (scaledWriteInput reg v) ≤ 32767 := by omega
        have hw : WriteValue [(name, reg)] name (GoVal.VF64 v) =
            WriteOutcome.wrote 1
              (uint16ToBytes ((goRound (scaledWriteInput reg v) % 65536)).toNat) := by
          simp [WriteValue, lookupReg, toFloat64, hdt, hc]
        have hr : ReadValue [(name, reg)] name
            (Except.ok (uint16ToBytes ((goRound (scaledWriteInput reg v) % 65536)).toNat)) =
            ReadOutcome.ok (GoVal.VF32
              ((goRound (scaledWriteInput reg v) : ℚ) * reg.Scale + reg.Offset)) := by
          simp [ReadValue, lookupReg, registerCountFromDataType, hdt, hscale,
            uint16ToBytes_length, bytesToInt16_of_emod _ hlo hhi]
        rw [codecRoundTrip, hw] at hrt
        simp only [hr] at hrt
        simp only [Option.some.injEq, ReadOutcome.ok.injEq, GoVal.VF32.injEq] at hrt
        refine ⟨goRound (scaledWriteInput reg v), ?_, hlo, hhi⟩
        have hmul : (goRound (scaledWriteInput reg v) : ℚ) * reg.Scale =
            ((v - reg.Offset) / reg.Scale) * reg.Scale := by
          have hvs : ((v - reg.Offset) / reg.Scale) * reg.Scale + reg.Offset = v := by
            field_simp
          linarith [hrt, hvs]
        exact (mul_right_cancel₀ hscale hmul).symm
    · rintro ⟨k, hk, hlo, hhi⟩
      have hval : scaledWriteInput reg v = (k : ℚ) := by
        rw [hsc, hk]
      have hround : goRound (scaledWriteInput reg v) = k := by
        rw [hval]
        exact goRound_intCast k
      have hrange : ¬ (goRound (scaledWriteInput reg v) < -32768 ∨
          goRound (scaledWriteInput reg v) > 32767) := by
        rw [hround]
        omega
      have hw : WriteValue [(name, reg)] name (GoVal.VF64 v) =
          WriteOutcome.wrote 1 (uint16ToBytes ((k % 65536)).toNat) := by
        simp [WriteValue, lookupReg, toFloat64, hdt, hrange, hround]
        exact ⟨hlo, hhi⟩
      have hkv : v = (k : ℚ) * reg.Scale + reg.Offset := by
        have hvs : ((v - reg.Offset) / reg.Scale) * reg.Scale + reg.Offset = v := by
          field_simp
        rw [hk] at hvs
        linarith
      have hr : ReadValue [(name, reg)] name
          (Except.ok (uint16ToBytes ((k % 65536)).toNat)) =
          ReadOutcome.ok (GoVal.VF32 v) := by
        simp [ReadValue, lookupReg, registerCountFromDataType, hdt, hscale,
          uint16ToBytes_length, bytesToInt16_of_emod k hlo hhi, hkv]
      simp [codecRoundTrip, hw, hr]
  · intro hdt
    constructor
    · intro hrt
      by_cases hc : goRound (scaledWriteInput reg v) % 18446744073709551616 > 65535
      · have hw : WriteValue [(name, reg)] name (GoVal.VF64 v) =
            WriteOutcome.failure ("value out of uint16 range for register: " ++ name) := by
          simp [WriteValue, lookupReg, toFloat64, hdt, hc]
        simp [codecRoundTrip, hw] at hrt
      · have hw : WriteValue [(name, reg)] name (GoVal.VF64 v) =
            WriteOutcome.wrote 1
              (uint16ToBytes (goRound (scaledWriteInput reg v) % 18446744073709551616).toNat) := by
          simp [WriteValue, lookupReg, toFloat64, hdt]
          omega
        have hmodpos : 0 ≤ goRound (scaledWriteInput reg v) % 18446744073709551616 :=
          Int.emod_nonneg _ (by norm_num)
        have hmodlt : (goRound (scaledWriteInput reg v) % 18446744073709551616).toNat < 65536 := by
          omega
        have hr : ReadValue [(name, reg)] name
            (Except.ok (uint16ToBytes
              (goRound (scaledWriteInput reg v) % 18446744073709551616).toNat)) =
            ReadOutcome.ok (GoVal.VF32
              (((goRound (scaledWriteInput reg v) % 18446744073709551616).toNat : ℚ) *
                reg.Scale + reg.Offset)) := by
          simp [ReadValue, lookupReg, registerCountFromDataType, hdt, hscale,
            uint16ToBytes_length, bytesToUint16_uint16ToBytes _ hmodlt]
        rw [codecRoundTrip, hw] at hrt
        simp only [hr] at hrt
        simp only [Option.some.injEq, ReadOutcome.ok.injEq, GoVal.VF32.injEq] at hrt
        refine ⟨((goRound (scaledWriteInput reg v) % 18446744073709551616).toNat : ℤ), ?_, by omega, by omega⟩
        have hmul : (((goRound (scaledWriteInput reg v) % 18446744073709551616).toNat : ℕ) : ℚ) *
            reg.Scale = ((v - reg.Offset) / reg.Scale) * reg.Scale := by
          have hvs : ((v - reg.Offset) / reg.Scale) * reg.Scale + reg.Offset = v := by
            field_simp
          linarith [hrt, hvs]
        have := (mul_right_cancel₀ hscale hmul).symm
        rw [this]
        push_cast
        ring
    · rintro ⟨k, hk, hlo, hhi⟩
      have hval : scaledWriteInput reg v = (k : ℚ) := by
        rw [hsc, hk]
      have hround : goRound (scaledWriteInput reg v) = k := by
        rw [hval]
        exact goRound_intCast k
      have hmod : k % 18446744073709551616 = k := Int.emod_eq_of_lt hlo (by omega)
      have hrange : ¬ (goRound (scaledWriteInput reg v) % 18446744073709551616 > 65535) := by
        rw [hround, hmod]
        omega
      have hw : WriteValue [(name, reg)] name (GoVal.VF64 v) =
          WriteOutcome.wrote 1 (uint16ToBytes k.toNat) := by
        simp [WriteValue, lookupReg, toFloat64, hdt, hrange, hround, hmod]
        exact hhi
      have hcast : ((k.toNat : ℕ) : ℚ) = (k : ℚ) := by
        have := Int.toNat_of_nonneg hlo
        exact_mod_cast congrArg (fun z : ℤ => (z : ℚ)) this
      have hkv : v = (k : ℚ) * reg.Scale + reg.Offset := by
        have hvs : ((v - reg.Offset) / reg.Scale) * reg.Scale + reg.Offset = v := by
          field_simp
        rw [hk] at hvs
        linarith
      have hr : ReadValue [(name, reg)] name (Except.ok (uint16ToBytes k.toNat)) =
          ReadOutcome.ok (GoVal.VF32 v) := by
        have hlt : k.toNat < 65536 := by omega
        simp [ReadValue, lookupReg, registerCountFromDataType, hdt, hscale,
          uint16ToBytes_length, bytesToUint16_uint16ToBytes k.toNat hlt, hcast, hkv]
      simp [codecRoundTrip, hw, hr]
  · intro hdt hrep hrange
    have hbk := f32OfBits_float32ToBits _ hrep
    have hw : WriteValue [(name, reg)] name (GoVal.VF64 v) =
        WriteOutcome.wrote 2 (f32Bytes ((v - reg.Offset) / reg.Scale)) := by
      simp [WriteValue, lookupReg, toFloat64, hdt, hsc, hrange]
    have hdec : bytesToFloat32 (f32Bytes ((v - reg.Offset) / reg.Scale)) =
        (v - reg.Offset) / reg.Scale := by
      rw [bytesToFloat32_f32Bytes _ hbk.1, hbk.2]
    have hr : ReadValue [(name, reg)] name
        (Except.ok (f32Bytes ((v - reg.Offset) / reg.Scale))) =
        ReadOutcome.ok (GoVal.VF32 v) := by
      simp [ReadValue, lookupReg, registerCountFromDataType, hdt, hscale,
        f32Bytes_length, hdec]
    simp [codecRoundTrip, hw, hr]

theorem goRound_of_pos_floor (q : ℚ) (z : ℤ) (h0 : 0 ≤ q)
    (hlo : (z : ℚ) ≤ q + 1 / 2) (hhi : q + 1 / 2 < z + 1) : goRound q = z := by
  unfold goRound
  rw [if_pos h0]
  exact Int.floor_eq_iff.mpr ⟨hlo, hhi⟩

/-- Claim C5 (counterexample): with scale 0.1 on an int16 register, the value
25.07 is not on the scale grid; encoding rounds it to raw 251 and decoding
returns 25.1, not 25.07.  The round trip is therefore not the identity on
every in-range value. -/
theorem codec_round_trip_counterexample :
    codecRoundTrip [("r", sc01Reg)] "r" (GoVal.VF64 (2507 / 100)) =
      some (ReadOutcome.ok (GoVal.VF32 (251 / 10))) ∧
    (251 / 10 : ℚ) ≠ 2507 / 100 := by
  have hdt : sc01Reg.DataType = "int16" := rfl
  have hsc : scaledWriteInput sc01Reg ((2507 : ℚ) / 100) = 2507 / 10 := by
    rw [scaledWriteInput, if_pos (by norm_num [sc01Reg])]
    norm_num [sc01Reg]
  have hfloor : goRound ((2507 : ℚ) / 10) = 251 :=
    goRound_of_pos_floor _ _ (by norm_num) (by norm_num) (by norm_num)
  have hw : WriteValue [("r", sc01Reg)] "r" (GoVal.VF64 (2507 / 100)) =
      WriteOutcome.wrote 1 (uint16ToBytes 251) := by
    simp [WriteValue, lookupReg, toFloat64, hdt, hsc, hfloor]
  have hr : ReadValue [("r", sc01Reg)] "r" (Except.ok (uint16ToBytes 251)) =
      ReadOutcome.ok (GoVal.VF32 (251 / 10)) := by
    simp [ReadValue, lookupReg, registerCountFromDataType, hdt, uint16ToBytes_length,
      uint16ToBytes, bytesToInt16, bytesToUint16]
    norm_num [sc01Reg]
  constructor
  · simp [codecRoundTrip, hw, hr]
  · norm_num

theorem codec_round_trip_witness :
    (sc01Reg.Scale ≠ 0 ∧ sc01Reg.DataType = "int16" ∧
      ((25 : ℚ) - sc01Reg.Offset) / sc01Reg.Scale = ((250 : ℤ) : ℚ) ∧
      sc01F32Reg.Scale ≠ 0 ∧ sc01F32Reg.DataType = "float32" ∧
      isF32 (((25 : ℚ) - sc01F32Reg.Offset) / sc01F32Reg.Scale)) ∧
    codecRoundTrip [("r", sc01Reg)] "r" (GoVal.VF64 25) =
      some (ReadOutcome.ok (GoVal.VF32 25)) ∧
    codecRoundTrip [("f", sc01F32Reg)] "f" (GoVal.VF64 25) =
      some (ReadOutcome.ok (GoVal.VF32 25)) := by
  have hrep : isF32 (((25 : ℚ) - sc01F32Reg.Offset) / sc01F32Reg.Scale) := by
    have h : ((25 : ℚ) - sc01F32Reg.Offset) / sc01F32Reg.Scale = 250 := by
      norm_num [sc01F32Reg]
    rw [h]
    exact Or.inr ⟨16384000, -16, by norm_num, by norm_num, by norm_num, by norm_num,
      by norm_num, Or.inl (by norm_num)⟩
  refine ⟨⟨by norm_num [sc01Reg], rfl, by norm_num [sc01Reg], by norm_num [sc01F32Reg],
    rfl, hrep⟩, ?_, ?_⟩
  · exact ((codec_round_trip_on_scale_grid "r" sc01Reg 25 (by norm_num [sc01Reg])).1
      rfl).mpr ⟨250, by norm_num [sc01Reg], by norm_num, by norm_num⟩
  · exact (codec_round_trip_on_scale_grid "f" sc01F32Reg 25
      (by norm_num [sc01F32Reg])).2.2 rfl hrep (by norm_num [sc01F32Reg, maxFloat32])

/-- The decode half of the spec example: raw word 250 (wire bytes [0, 250])
on the scale 0.1 register decodes to 25.0, and encoding 25.0 re-derives the
raw word 250 (wire bytes [0, 250]). -/
theorem codec_scaling_example :
    ReadValue [("r", sc01Reg)] "r" (Except.ok [0, 250]) =
      ReadOutcome.ok (GoVal.VF32 25) ∧
    WriteValue [("r", sc01Reg)] "r" (GoVal.VF64 25) =
      WriteOutcome.wrote 1 [0, 250] := by
  have hdt : sc01Reg.DataType = "int16" := rfl
  have hsc : scaledWriteInput sc01Reg (25 : ℚ) = 250 := by
    rw [scaledWriteInput, if_pos (by norm_num [sc01Reg])]
    norm_num [sc01Reg]
  have hfloor : goRound ((250 : ℚ)) = 250 := by
    have := goRound_intCast 250
    norm_num at this
    exact this
  constructor
  · simp [ReadValue, lookupReg, registerCountFromDataType, hdt, bytesToInt16, bytesToUint16]
    norm_num [sc01Reg]
  · simp [WriteValue, lookupReg, toFloat64, hdt, hsc, hfloor]
    rfl

/-- Claim C6 (amended): WriteValue validates the range before any wire write,
but the check applies to the value after scaling and rounding (math.Round,
half away from zero): int16 fails exactly when the rounded value leaves
[-32768, 32767]; uint16 fails exactly when the twos-complement uint64 image
of the rounded value exceeds 65535, so every value rounding to a negative
integer (within int64 range) is rejected, while values in (-0.5, 0] round to
zero and are accepted; float32 fails exactly when the scaled magnitude
exceeds MaxFloat32.  A failure outcome is returned before the wire write. -/
theorem WriteValue_validates_rounded_range (name : String) (reg : RegisterDef) (v : ℚ) :
    (reg.DataType = "int16" →
      (isFailure (WriteValue [(name, reg)] name (GoVal.VF64 v)) = true ↔
        (goRound (scaledWriteInput reg v) < -32768 ∨
          goRound (scaledWriteInput reg v) > 32767))) ∧
    (reg.DataType = "uint16" →
      (isFailure (WriteValue [(name, reg)] name (GoVal.VF64 v)) = true ↔
        goRound (scaledWriteInput reg v) % 18446744073709551616 > 65535)) ∧
    (reg.DataType = "uint16" →
      -9223372036854775808 ≤ goRound (scaledWriteInput reg v) →
      goRound (scaledWriteInput reg v) < 0 →
      isFailure (WriteValue [(name, reg)] name (GoVal.VF64 v)) = true) ∧
    (reg.DataType = "float32" →
      (isFailure (WriteValue [(name, reg)] name (GoVal.VF64 v)) = true ↔
        (scaledWriteInput reg v > maxFloat32 ∨ scaledWriteInput reg v < -maxFloat32))) := by
  refine ⟨?_, ?_, ?_, ?_⟩
  · intro hdt
    by_cases hc : goRound (scaledWriteInput reg v) < -32768 ∨
        goRound (scaledWriteInput reg v) > 32767
    · simp [WriteValue, lookupReg, toFloat64, hdt, hc, isFailure]
    · simp [WriteValue, lookupReg, toFloat64, hdt, hc, isFailure]
  · intro hdt
    by_cases hc : goRound (scaledWriteInput reg v) % 18446744073709551616 > 65535
    · simp [WriteValue, lookupReg, toFloat64, hdt, hc, isFailure]
    · simp [WriteValue, lookupReg, toFloat64, hdt, hc, isFailure]
  · intro hdt hb hneg
    have hc : goRound (scaledWriteInput reg v) % 18446744073709551616 > 65535 := by
      omega
    simp [WriteValue, lookupReg, toFloat64, hdt, hc, isFailure]
  · intro hdt
    by_cases hc : scaledWriteInput reg v > maxFloat32 ∨ scaledWriteInput reg v < -maxFloat32
    · simp [WriteValue, lookupReg, toFloat64, hdt, hc, isFailure]
    · simp [WriteValue, lookupReg, toFloat64, hdt, hc, isFailure]

/-- Claim C6 (counterexample): the negative value -0.25 written to a uint16
register is NOT rejected: math.Round takes it to zero, the range check
passes, and the word 0 is written to the wire. -/
theorem write_negative_uint16_counterexample :
    WriteValue [("u", rawU16Reg)] "u" (GoVal.VF64 (-1 / 4)) =
      WriteOutcome.wrote 1 [0, 0] ∧ (-1 / 4 : ℚ) < 0 := by
  have hdt : rawU16Reg.DataType = "uint16" := rfl
  have hsc : scaledWriteInput rawU16Reg (-1 / 4 : ℚ) = -1 / 4 := by
    rw [scaledWriteInput, if_neg (by norm_num [rawU16Reg])]
  have hround : goRound (-1 / 4 : ℚ) = 0 := by
    unfold goRound
    rw [if_neg (by norm_num)]
    rw [show (-(-1 / 4 : ℚ) + 1 / 2) = 3 / 4 by norm_num]
    rw [show ⌊(3 / 4 : ℚ)⌋ = 0 from Int.floor_eq_iff.mpr (by norm_num)]
    norm_num
  constructor
  · simp [WriteValue, lookupReg, toFloat64, hdt, hsc, hround]
    rfl
  · norm_num

theorem WriteValue_validates_rounded_range_witness :
    rawI16Reg.DataType = "int16" ∧
    isFailure (WriteValue [("w", rawI16Reg)] "w" (GoVal.VF64 40000)) = true := by
  refine ⟨rfl, ?_⟩
  have hsc : scaledWriteInput rawI16Reg (40000 : ℚ) = 40000 := by
    rw [scaledWriteInput, if_neg (by norm_num [rawI16Reg])]
  have hround : goRound ((40000 : ℚ)) = 40000 := by
    have := goRound_intCast 40000
    norm_num at this
    exact this
  exact ((WriteValue_validates_rounded_range "w" rawI16Reg 40000).1 rfl).mpr
    (by rw [hsc, hround]; norm_num)

end modbus

namespace dx2w

theorem unmarshalEntry_marshalEntry (e : HistoryEntry) :
    unmarshalEntry (marshalEntry e) =
      { Timestamp := e.Timestamp, Value := jsonValueRT e.Value, Error := e.Error } := by
  unfold unmarshalEntry marshalEntry jsonValueRT
  by_cases he : e.Error = ""
  · simp [he]
  · simp [he]

/-- Claim C4 (amended): Save then Load reproduces the register→entries map up
to the JSON re-typing of values: timestamps and error strings are reproduced
exactly, booleans and nil values are reproduced exactly, and every numeric
value comes back as a float64 carrying the same number, so a map holding a
float32 (or int16 / uint16) value is not reproduced identically. -/
theorem save_load_round_trip (h : HistMap) :
    loadFromDisk (saveToDisk h) =
      h.map (fun p => (p.1, p.2.map (fun e =>
        { Timestamp := e.Timestamp, Value := jsonValueRT e.Value,
          Error := e.Error }))) := by
  unfold loadFromDisk saveToDisk
  rw [List.map_map]
  apply List.map_congr_left
  intro p _
  simp only [Function.comp_apply, List.map_map]
  congr 1
  apply List.map_congr_left
  intro e _
  exact unmarshalEntry_marshalEntry e

/-- Claim C4 (counterexample): a register whose single entry holds the
float32 value 35.0 is loaded back with the float64 value 35.0; under Go
interface equality (which requires the dynamic types to coincide) the loaded
map differs from the saved one, and consumers that type-assert float32 on
history values (such as the heat pump output check) no longer match. -/
theorem save_load_not_identical :
    loadFromDisk (saveToDisk [("r", [⟨0, GoVal.VF32 35, ""⟩])]) =
      [("r", [⟨0, GoVal.VF64 35, ""⟩])] ∧
    loadFromDisk (saveToDisk [("r", [⟨0, GoVal.VF32 35, ""⟩])]) ≠
      [("r", [⟨0, GoVal.VF32 35, ""⟩])] := by
  constructor
  · decide
  · decide

theorem lookupInterval_mem (pg : List (String × ℤ)) (k : String) (v : ℤ)
    (hv : lookupInterval pg k = some v) : (k, v) ∈ pg := by
  induction pg with
  | nil => simp [lookupInterval] at hv
  | cons gp rest ih =>
      by_cases hg : gp.1 = k
      · simp [lookupInterval, hg] at hv
        have hkv : (k, v) = gp := by
          rw [← hg, ← hv]
        rw [hkv]
        exact List.mem_cons_self gp rest
      · simp [lookupInterval, hg] at hv
        exact List.mem_cons_of_mem gp (ih hv)

/-- Claim C10 (amended): an empty interval map falls back to 660 seconds for
every group; a configured group uses its configured interval; a group missing
from a non-empty map falls back to the default group interval, or to the Go
zero value 0 when the default group is not configured either — so the
interval is positive only under the proviso that every configured interval is
positive and the (non-empty) map binds the group or the default group. -/
theorem groupIntervalSec_spec (pg : List (String × ℤ)) (group : String) :
    (pg = [] → groupIntervalSec pg group = 660) ∧
    (∀ v, lookupInterval pg group = some v → groupIntervalSec pg group = v) ∧
    (pg ≠ [] → lookupInterval pg group = none →
      groupIntervalSec pg group = (lookupInterval pg "default").getD 0) ∧
    ((∀ kv ∈ pg, 0 < kv.2) →
      (pg = [] ∨ (lookupInterval pg group).isSome ∨
        (lookupInterval pg "default").isSome) →
      0 < groupIntervalSec pg group) := by
  refine ⟨?_, ?_, ?_, ?_⟩
  · intro hpg
    subst hpg
    simp only [groupIntervalSec, effectivePollGroups, lookupInterval]
    by_cases hg : "default" = group <;> simp [hg]
  · intro v hv
    have hne : pg ≠ [] := by
      intro hpg
      subst hpg
      simp [lookupInterval] at hv
    simp only [groupIntervalSec, effectivePollGroups]
    rw [if_neg hne, hv]
  · intro hne hmiss
    simp only [groupIntervalSec, effectivePollGroups]
    rw [if_neg hne, hmiss]
    cases hd : lookupInterval pg "default" <;> simp [hd]
  · intro hpos hsome
    rcases hsome with hpg | hg | hd
    · subst hpg
      simp only [groupIntervalSec, effectivePollGroups, lookupInterval]
      by_cases hg : "default" = group <;> simp [hg]
    · rcases Option.isSome_iff_exists.mp hg with ⟨v, hv⟩
      have hne : pg ≠ [] := by
        intro hpg
        subst hpg
        simp [lookupInterval] at hv
      have hres : groupIntervalSec pg group = v := by
        simp only [groupIntervalSec, effectivePollGroups]
        rw [if_neg hne, hv]
      rw [hres]
      exact hpos (group, v) (lookupInterval_mem pg group v hv)
    · rcases Option.isSome_iff_exists.mp hd with ⟨v, hv⟩
      have hne : pg ≠ [] := by
        intro hpg
        subst hpg
        simp [lookupInterval] at hv
      cases hgl : lookupInterval pg group with
      | some w =>
          have hres : groupIntervalSec pg group = w := by
            simp only [groupIntervalSec, effectivePollGroups]
            rw [if_neg hne, hgl]
          rw [hres]
          exact hpos (group, w) (lookupInterval_mem pg group w hgl)
      | none =>
          have hres : groupIntervalSec pg group = v := by
            simp only [groupIntervalSec, effectivePollGroups]
            rw [if_neg hne, hgl, hv]
          rw [hres]
          exact hpos ("default", v) (lookupInterval_mem pg "default" v hv)

/-- Claim C10 (counterexample): a non-empty poll group map that configures
neither the group being scheduled nor the default group yields the interval
0 seconds (the Go zero value of the missed lookup), which is not positive:
the resulting zero-period ticker construction panics at runtime. -/
theorem groupIntervalSec_zero_counterexample :
    groupIntervalSec [("fast", 5)] "slow" = 0 ∧
    ¬ 0 < groupIntervalSec [("fast", 5)] "slow" := by
  constructor
  · decide
  · decide

theorem groupIntervalSec_spec_witness :
    0 < groupIntervalSec [("default", 660)] "slow" := by
  exact (groupIntervalSec_spec [("default", 660)] "slow").2.2.2
    (by intro kv hkv; fin_cases hkv; norm_num)
    (Or.inr (Or.inr (by decide)))

end dx2w

